import Mathlib

/-!
Verification development for the sweep-dedupe duplicate-detection engine
(IEBH/sweep-dedupe, `src/index.js`).

The engine's data model (per the repository): a field value is a string,
an array of strings, or absent; records are string-keyed maps of field
values.  We embed the engine shallowly: JS values become an inductive
type, the mutator and comparison registries become Lean functions, the
sort-sweep scan becomes a well-founded recursion over cursor state, and
the run pipeline becomes a total function returning `Except` for the
error paths.  Scores are rationals (JS numeric coercion is applied where
the code compares or stores a score).
-/

namespace SweepDedupe

/-- A JS field value as used by the engine: a string, a number, a boolean,
an array of strings (the data model's array-valued fields), or
`undefined` (an absent field).  Comparison handlers also produce these
(`exact` can produce a boolean, see `exact`). -/
inductive JSVal where
  | str : String → JSVal
  | num : ℚ → JSVal
  | bool : Bool → JSVal
  | arr : List String → JSVal
  | undefined : JSVal
deriving DecidableEq, Repr, Inhabited

/-- An input reference record: a string-keyed map of field values,
modelled as an association list (first match wins, matching the
no-duplicate-keys discipline of JS objects). -/
def RecIn : Type := List (String × JSVal)

instance : DecidableEq RecIn := by unfold RecIn; infer_instance
instance : Inhabited RecIn := ⟨([] : List (String × JSVal))⟩

/-- JS property read `ref[field]`: the field's value, `undefined` if absent. -/
def getField (r : RecIn) (f : String) : JSVal :=
  match List.lookup f r with
  | some v => v
  | none => .undefined

/-- JS object spread/assignment `{...r, [f]: v}`: replace the field in
place if present, else append it. -/
def setField (r : RecIn) (f : String) (v : JSVal) : RecIn :=
  match r with
  | [] => [(f, v)]
  | (g, w) :: rest => if g = f then (f, v) :: rest else (g, w) :: setField rest f v

/-- JS truthiness of a field value (`""`, `0`, `false`, `undefined` are
falsy; every array — even an empty one — is truthy). -/
def truthy : JSVal → Bool
  | .str s => s ≠ ""
  | .num q => q ≠ 0
  | .bool b => b
  | .arr _ => true
  | .undefined => false

/-- JS strict equality `===` on field values.  Same-type comparisons are
structural for primitives; two arrays compare by reference, and distinct
records' field arrays are distinct objects, so the array/array case is
`false`; cross-type comparisons are `false`. -/
def jsStrictEq : JSVal → JSVal → Bool
  | .str s, .str t => s = t
  | .num p, .num q => p = q
  | .bool p, .bool q => p = q
  | .undefined, .undefined => true
  | _, _ => false

/-- JS loose equality `==` restricted to the engine's field values:
structural for same-type primitives, `undefined == undefined` is true,
a string equals an array whose comma-join equals it (JS coerces the
array to its joined string), and a boolean compares with a number via
numeric coercion.  (Numeric-string coercions such as `"1" == 1` are
outside the data model exercised by the engine and are modelled as
`false`.) -/
def looseEq : JSVal → JSVal → Bool
  | .str s, .str t => s = t
  | .num p, .num q => p = q
  | .bool p, .bool q => p = q
  | .undefined, .undefined => true
  | .str s, .arr xs => s = String.intercalate "," xs
  | .arr xs, .str s => String.intercalate "," xs = s
  | .arr _, .arr _ => false
  | .bool b, .num q => (if b then (1 : ℚ) else 0) = q
  | .num q, .bool b => q = (if b then (1 : ℚ) else 0)
  | _, _ => false

/-- A natural number as a rational (explicit constructor form, used for
the JS numbers the engine derives from positions). -/
def natQ (n : Nat) : ℚ := Rat.ofInt (Int.ofNat n)

instance {α β : Type} [DecidableEq α] [DecidableEq β] : DecidableEq (Except α β) := fun a b =>
  match a, b with
  | .error x, .error y =>
    if h : x = y then .isTrue (by rw [h]) else .isFalse (fun hc => by cases hc; exact h rfl)
  | .ok x, .ok y =>
    if h : x = y then .isTrue (by rw [h]) else .isFalse (fun hc => by cases hc; exact h rfl)
  | .error _, .ok _ => .isFalse (fun hc => by cases hc)
  | .ok _, .error _ => .isFalse (fun hc => by cases hc)

/-- JS `ToNumber` on the values a comparison handler can return
(`exact` and `exactTruncate` return numbers or booleans).  Strings,
arrays and `undefined` never reach a numeric context in the claims'
scope and are mapped to 0. -/
def toNumber : JSVal → ℚ
  | .num q => q
  | .bool b => if b then 1 else 0
  | _ => 0

/-- One character of `JSON.stringify`'s string escaping (backslash and
quote escaped; the mutated bibliographic strings contain no control
characters). -/
def jsonEscChar (c : Char) : List Char :=
  if c = '"' ∨ c = '\\' then ['\\', c] else [c]

/-- `JSON.stringify` of a string. -/
def jsonQuote (s : String) : String :=
  String.mk ('"' :: s.data.flatMap jsonEscChar ++ ['"'])

/-- `JSON.stringify` of an array of strings. -/
def jsonStringifyArr (xs : List String) : String :=
  "[" ++ String.intercalate "," (xs.map jsonQuote) ++ "]"

/-! ## Mutator registry (`mutators` in `src/index.js`)

Each mutator is `(value, record) -> value`.  The JS handlers operate on
strings (`v.replace`, regex tests); in the model a handler receives a
`JSVal` and transforms its string payload, returning non-string values
unchanged (a non-string value would make the JS string method throw,
which no claim exercises).  The two author-name rewriters are not
referenced by any claim and are left out of the registry. -/

/-- JS `\s` whitespace class (the ASCII part plus NBSP, the only
whitespace the engine's inputs contain). -/
def jsSpace (c : Char) : Bool :=
  c = ' ' ∨ c = '\t' ∨ c = '\n' ∨ c = '\r' ∨ c = '\x0b' ∨ c = '\x0c' ∨ c = ' '

/-- ASCII digit. -/
def jsDigit (c : Char) : Bool := '0' ≤ c ∧ c ≤ '9'

/-- ASCII letter. -/
def jsAlpha (c : Char) : Bool := ('a' ≤ c ∧ c ≤ 'z') ∨ ('A' ≤ c ∧ c ≤ 'Z')

/-- Replace every maximal run of characters outside `[0-9A-Za-z\s]` by a
single space (the global regex replace in `alphaNumericOnly`); the
boolean tracks whether the previous character was inside such a run. -/
def alphaNumRuns : Bool → List Char → List Char
  | _, [] => []
  | inRun, c :: rest =>
    if jsDigit c ∨ jsAlpha c ∨ jsSpace c then c :: alphaNumRuns false rest
    else if inRun then alphaNumRuns true rest
    else ' ' :: alphaNumRuns true rest

/-- `mutators.alphaNumericOnly`: `v.replace(/[^0-9A-Za-z\s]+/g, ' ')`. -/
def alphaNumericOnly (s : String) : String := String.mk (alphaNumRuns false s.data)

/-- `mutators.noSpace`: `v.replace(/[\s]+/g, '')`. -/
def noSpace (s : String) : String := String.mk (s.data.filter (fun c => ¬ jsSpace c))

/-- `mutators.numericOnly`: `v.replace(/[^0-9]+/g, '')`. -/
def numericOnly (s : String) : String := String.mk (s.data.filter jsDigit)

/-- One character of lodash `_.deburr`: map a Latin-1 supplement letter
to its basic-latin equivalent (the table used by lodash for the range
the engine's inputs exercise); other characters pass through. -/
def deburrChar (c : Char) : List Char :=
  if c ∈ ['À', 'Á', 'Â', 'Ã', 'Ä', 'Å'] then ['A']
  else if c ∈ ['à', 'á', 'â', 'ã', 'ä', 'å'] then ['a']
  else if c = 'Ç' then ['C'] else if c = 'ç' then ['c']
  else if c = 'Ð' then ['D'] else if c = 'ð' then ['d']
  else if c ∈ ['È', 'É', 'Ê', 'Ë'] then ['E']
  else if c ∈ ['è', 'é', 'ê', 'ë'] then ['e']
  else if c ∈ ['Ì', 'Í', 'Î', 'Ï'] then ['I']
  else if c ∈ ['ì', 'í', 'î', 'ï'] then ['i']
  else if c = 'Ñ' then ['N'] else if c = 'ñ' then ['n']
  else if c ∈ ['Ò', 'Ó', 'Ô', 'Õ', 'Ö', 'Ø'] then ['O']
  else if c ∈ ['ò', 'ó', 'ô', 'õ', 'ö', 'ø'] then ['o']
  else if c ∈ ['Ù', 'Ú', 'Û', 'Ü'] then ['U']
  else if c ∈ ['ù', 'ú', 'û', 'ü'] then ['u']
  else if c = 'Ý' then ['Y'] else if c ∈ ['ý', 'ÿ'] then ['y']
  else if c = 'Æ' then ['A', 'e'] else if c = 'æ' then ['a', 'e']
  else if c = 'Þ' then ['T', 'h'] else if c = 'þ' then ['t', 'h']
  else if c = 'ß' then ['s', 's']
  else [c]

/-- `mutators.deburr`: lodash `_.deburr` — map Latin-1 supplement
letters to basic latin and drop combining diacritical marks
(U+0300–U+036F). -/
def deburr (s : String) : String :=
  String.mk ((s.data.filter (fun c => ¬ (0x300 ≤ c.toNat ∧ c.toNat ≤ 0x36f))).flatMap deburrChar)

/-- `mutators.noCase`: `v.toLowerCase()`. -/
def noCase (s : String) : String := String.mk (s.data.map Char.toLower)

/-- The bracket characters trimmed by `removeEnclosingBrackets`. -/
def isBracketChar (c : Char) : Bool :=
  c = '(' ∨ c = ')' ∨ c = '[' ∨ c = ']' ∨ c = '{' ∨ c = '}'

/-- `mutators.removeEnclosingBrackets`: `_.trim(v, '()[]{}')` — strip all
leading and trailing bracket characters. -/
def removeEnclosingBrackets (s : String) : String :=
  String.mk (((s.data.dropWhile isBracketChar).reverse.dropWhile isBracketChar).reverse)

/-- Remainder of the input after the next `>` (the end of an HTML tag),
`none` when no `>` follows. -/
def afterTag : List Char → Option (List Char)
  | [] => none
  | c :: rest => if c = '>' then some rest else afterTag rest

theorem afterTag_length : ∀ l r, afterTag l = some r → r.length < l.length := by
  intro l
  induction l with
  | nil => intro r h; simp [afterTag] at h
  | cons c rest ih =>
    intro r h
    rw [afterTag] at h
    split at h
    · cases h; simp
    · exact Nat.lt_trans (ih r h) (by simp)

/-- `mutators.stripHtmlTags`: `v.replace(/(<([^>]+)>)/ig, "")` — drop
every `<...>` span with at least one non-`>` character inside. -/
def stripTags : List Char → List Char
  | [] => []
  | c :: rest =>
    if _hc : c = '<' then
      match hrest : rest with
      | [] => [c]
      | d :: rest2 =>
        if _hd : d = '>' then c :: stripTags rest
        else
          match hat : afterTag (d :: rest2) with
          | some rem => stripTags rem
          | none => c :: stripTags rest
    else c :: stripTags rest
termination_by l => l.length
decreasing_by
  · simp [hrest]
  · exact Nat.lt_trans (afterTag_length _ _ hat) (by simp [hrest])
  · simp [hrest]
  · simp

/-- `mutators.stripHtmlTags` on a string. -/
def stripHtmlTags (s : String) : String := String.mk (stripTags s.data)

/-- Unicode dash punctuation `\p{Pd}` (the members the engine's page
fields exercise). -/
def isDash (c : Char) : Bool :=
  c = '-' ∨ c = '‐' ∨ c = '‑' ∨ c = '‒' ∨ c = '–' ∨ c = '—' ∨ c = '―'

/-- `mutators.consistentPageNumbering`: parse
`/^(?<from>\d+)\s*(\p{Pd}+(?<to>\d+)\s*)?$/u`; when both pages are
present, left-pad the second with the leading digits of the first that
it omits (`244-58` → `244-258`); a lone first page is returned as-is;
anything unparsable becomes the empty string. -/
def consistentPageNumbering (s : String) : String :=
  let cs := s.data
  let fromDigits := cs.takeWhile jsDigit
  if fromDigits = [] then ""
  else
    let r1 := (cs.drop fromDigits.length).dropWhile jsSpace
    if r1 = [] then String.mk fromDigits
    else
      let dashes := r1.takeWhile isDash
      if dashes = [] then ""
      else
        let r2 := r1.drop dashes.length
        let toDigits := r2.takeWhile jsDigit
        if toDigits = [] then ""
        else if (r2.drop toDigits.length).dropWhile jsSpace ≠ [] then ""
        else
          -- `prefix = from.substring(0, from.length - to.length)` (empty
          -- when `to` is at least as long as `from`, as in JS).
          let pfx := fromDigits.take (fromDigits.length - toDigits.length)
          String.mk (fromDigits ++ '-' :: (pfx ++ toDigits))

/-- The test `/^https?:\/\/doi.org\//` (note the unescaped `.`, which
matches any character, as in the source regex). -/
def doiUrlTest (s : String) : Bool :=
  let cs := s.data
  if "http".data.isPrefixOf cs then
    let r := cs.drop 4
    let r := if r.head? = some 's' then r.drop 1 else r
    "://doi".data.isPrefixOf r &&
      (match r.drop 6 with
       | _ :: r3 => "org/".data.isPrefixOf r3
       | [] => false)
  else false

/-- `u.replace(/^http:/, 'https:')`. -/
def upgradeScheme (u : String) : String :=
  if "http:".data.isPrefixOf u.data then "https:" ++ String.mk (u.data.drop 5) else u

/-- `mutators.doiRewrite` on a non-empty string field value. -/
def doiRewriteStr (s : String) : String :=
  if "https://".data.isPrefixOf s.data then s
  else if "http://".data.isPrefixOf s.data then "https:" ++ String.mk (s.data.drop 5)
  else "https://doi.org/" ++ s

/-- `mutators.doiRewrite`: tidy a DOI field into an `https://doi.org/`
URL; when the field is empty, find the first DOI-looking entry of
`ref.urls` (`ref.urls ?? []`) and upgrade its scheme, else return `""`. -/
def doiRewrite (v : JSVal) (ref : RecIn) : JSVal :=
  if truthy v then
    match v with
    | .str s => .str (doiRewriteStr s)
    | _ => v
  else
    match getField ref "urls" with
    | .arr us =>
      match us.find? doiUrlTest with
      | some u => .str (upgradeScheme u)
      | none => .str ""
    | _ => .str ""

/-- Lift a string transform to a mutator handler. -/
def strMut (f : String → String) : JSVal → RecIn → JSVal :=
  fun v _ => match v with | .str s => .str (f s) | _ => v

/-- The mutator registry: name → handler.  `authorRewrite` and
`authorRewriteSingle` are not referenced by any claim and are omitted. -/
def mutators : String → Option (JSVal → RecIn → JSVal) := fun n =>
  if n = "alphaNumericOnly" then some (strMut alphaNumericOnly)
  else if n = "noSpace" then some (strMut noSpace)
  else if n = "deburr" then some (strMut deburr)
  else if n = "noCase" then some (strMut noCase)
  else if n = "doiRewrite" then some doiRewrite
  else if n = "numericOnly" then some (strMut numericOnly)
  else if n = "removeEnclosingBrackets" then some (strMut removeEnclosingBrackets)
  else if n = "stripHtmlTags" then some (strMut stripHtmlTags)
  else if n = "consistentPageNumbering" then some (strMut consistentPageNumbering)
  else none

/-! ## Comparison registry (`comparisons` in `src/index.js`) -/

/-- `comparisons.exact.handler`: for two arrays, the boolean equality of
their `JSON.stringify` serializations (the source returns this boolean
as-is); otherwise `a == b ? 1 : 0`. -/
def exactCmp (a b : JSVal) : JSVal :=
  match a, b with
  | .arr xs, .arr ys => .bool (jsonStringifyArr xs == jsonStringifyArr ys)
  | _, _ => if looseEq a b then .num 1 else .num 0

/-- `comparisons.exactTruncate.handler`: truncate both strings to the
shorter length and compare exactly.  The source calls `.substr`, which
throws on non-strings; no claim exercises that, and the model returns 0
there. -/
def exactTruncate (a b : JSVal) : JSVal :=
  match a, b with
  | .str s, .str t =>
    let m := min s.data.length t.data.length
    .num (if s.data.take m = t.data.take m then 1 else 0)
  | _, _ => .num 0

/-- The comparison registry: name → handler.  `jaroWinkler` (an external
library metric) and `random` (nondeterministic, testing-only) are not
referenced by any claim and are omitted. -/
def comparisons : String → Option (JSVal → JSVal → JSVal) := fun n =>
  if n = "exact" then some exactCmp
  else if n = "exactTruncate" then some exactTruncate
  else none

/-! ## Strategy and step descriptors -/

/-- A step's `sort` property: a single field name or a list of field
names. -/
inductive SortKey where
  | one : String → SortKey
  | many : List String → SortKey
deriving DecidableEq, Repr

/-- A step descriptor as a loose JS object: any of the properties may be
absent (`none`). -/
structure StepObj where
  fields : Option (List String) := none
  sort : Option SortKey := none
  comparison : JSVal := .undefined
  skipOmitted : Option Bool := none
deriving Repr

/-- A strategy descriptor as a loose JS object.  `title` and
`description` are JS values checked only for truthiness; `mutators` maps
a field name to its mutator chain (`_.castArray` of the source's
string-or-list is folded into the type). -/
structure StratObj where
  title : JSVal := .undefined
  description : JSVal := .undefined
  mutators : Option (List (String × List String)) := none
  steps : Option (List StepObj) := none

/-- `step.fields`, reading an absent property as the empty list (the
absent and empty cases are not distinguished by any consumer). -/
def stepFields (st : StepObj) : List String := st.fields.getD []

/-- `step.skipOmitted ?? true`. -/
def stepSkip (st : StepObj) : Bool := st.skipOmitted.getD true

/-- `this.comparisons[step.comparison].handler`: resolve the step's
comparison by name.  An unknown or non-string name is a JS `TypeError`
at call time; no claim exercises that, and the model resolves it to the
constant-0 handler. -/
def stepHandler (st : StepObj) : JSVal → JSVal → JSVal :=
  match st.comparison with
  | .str n =>
    match comparisons n with
    | some h => h
    | none => fun _ _ => .num 0
  | _ => fun _ _ => .num 0

/-- One field's contribution inside `compareViaStepAvg` /
`compareViaStepMin`: 0 when `skipOmitted` (default true) and either
side's value is falsy, else the comparison handler's result. -/
def fieldScore (st : StepObj) (a b : RecIn) (f : String) : JSVal :=
  if stepSkip st ∧ (¬ truthy (getField a f) ∨ ¬ truthy (getField b f)) then .num 0
  else stepHandler st (getField a f) (getField b f)

/-- `compareViaStepAvg`: the source's `step.fields.reduce((result,
field) => ..., 0) / step.fields.length`.  Note the reduce callback
ignores its accumulator `result` (mirrored here), so the value divided
is the last field's score, not a sum. -/
def compareViaStepAvg (a b : RecIn) (st : StepObj) : ℚ :=
  toNumber ((stepFields st).foldl (fun _result f => fieldScore st a b f) (.num 0))
    / (stepFields st).length

/-- `compareViaStepMin`: start `minimum` at 1 and lower it to each
field's score that compares below it. -/
def compareViaStepMin (a b : RecIn) (st : StepObj) : ℚ :=
  (stepFields st).foldl
    (fun minimum f =>
      let score := toNumber (fieldScore st a b f)
      if score < minimum then score else minimum)
    1

/-! ## Settings (`settings` in `src/index.js`)

`ACTIONS = {STATS: 0, MARK: 1, DELETE: 2}`, `DUPEREF = {INDEX: 0,
RECNUMBER: 1}`, `FIELDWEIGHT = {MINIMUM: 0, AVERAGE: 1}`; the enums are
plain JS numbers.  `markOk` / `markDupe` are a literal value or a
function of the record. -/

structure Settings where
  strategy : String := "clark"
  validateStrategy : Bool := true
  action : Nat := 0
  actionField : String := "dedupe"
  threshold : ℚ := 1/10
  markOk : JSVal ⊕ (RecIn → JSVal) := .inl (.str "OK")
  markDupe : JSVal ⊕ (RecIn → JSVal) := .inl (.str "DUPE")
  dupeRef : Nat := 0
  fieldWeight : Nat := 0
  markOriginal : Bool := false

/-- `markOk`/`markDupe` resolution: a function setting is called with
the record, a literal is used as-is. -/
def applyMark (m : JSVal ⊕ (RecIn → JSVal)) (ref : RecIn) : JSVal :=
  match m with
  | .inl v => v
  | .inr f => f ref

/-! ## Strategy validation (`validateStrategy` in `src/index.js`) -/

/-- Truthiness of `step.sort`: absent and `""` are falsy; any list
(even empty) is truthy. -/
def sortFalsy : Option SortKey → Bool
  | none => true
  | some (.one s) => s = ""
  | some (.many _) => false

/-- `_.isArray(step.sort) && !step.sort.length`. -/
def sortBlankList : Option SortKey → Bool
  | some (.many []) => true
  | _ => false

/-- `validateStrategy`: accumulate the missing-field errors, then read
`strategy.steps.length` — which throws a `TypeError` when `steps` is
absent (modelled as `Except.error`) — then accumulate the per-step
errors, and return the error list, or `true` when it is empty. -/
def validateStrategy (strategy : StratObj) : Except String (List String ⊕ Bool) :=
  let errs :=
    (if ¬ truthy strategy.title then ["Field title is missing"] else []) ++
    (if ¬ truthy strategy.description then ["Field description is missing"] else []) ++
    (if strategy.mutators.isNone then ["Field mutators is missing"] else []) ++
    (if strategy.steps.isNone then ["Field steps is missing"] else [])
  match strategy.steps with
  | none => .error "TypeError: Cannot read properties of undefined (reading length)"
  | some steps =>
    let errs := errs ++ (if steps.length = 0 then ["Should contain at least one step"] else [])
    let errs := errs ++ steps.enum.flatMap (fun p =>
      let k := toString (p.1 + 1)
      (if stepFields p.2 = [] then ["Step #" ++ k ++ " contains no fields"] else []) ++
      (if sortFalsy p.2.sort then ["Step #" ++ k ++ " contains no sort field(s)"] else []) ++
      (if sortBlankList p.2.sort then ["Step #" ++ k ++ " contains a blank sort field list"] else []) ++
      (if ¬ truthy p.2.comparison then ["Step #" ++ k ++ " contains no comparison"] else []))
    .ok (if errs.length > 0 then .inl errs else .inr true)

/-! ## Working records and the sweep engine (`run` in `src/index.js`)

A working record is the mutated copy built at the start of `run`:
`{original, index, recNumber, dedupe: {steps: []}, ...original,
...mutated-fields}`.  The bibliographic fields live in `fields`; the
engine's own bookkeeping (`index`, `recNumber`, `dedupe`) is kept out of
band (the JS property namespace is shared, but records carrying fields
literally named `index`/`dedupe` etc. are outside the data model).  The
sparse `dedupe.steps` array is a list of optional per-step entries. -/

/-- One `dedupe.steps[stepIndex]` entry: `{score, dupeOf?}`. -/
structure StepAnn where
  score : ℚ
  dupeOf : Option JSVal := none
deriving DecidableEq, Repr, Inhabited

/-- A working record (see the section comment). -/
structure WorkRec where
  original : RecIn := []
  index : Nat := 0
  recNumber : JSVal := .undefined
  fields : RecIn := []
  steps : List (Option StepAnn) := []
  score : ℚ := 0
deriving DecidableEq, Inhabited

/-- The identity stored in `dupeOf`: `recNumber` under
`DUPEREF.RECNUMBER` (1), else the input `index`. -/
def refId (dupeRef : Nat) (r : WorkRec) : JSVal :=
  if dupeRef = 1 then r.recNumber else .num (natQ r.index)

/-- The scan's sort-key read `sortedRefs[k][step.sort]`: a JS property
access, whose key is coerced to a string — a list key reads the property
named by the comma-joined list, not the listed fields. -/
def sortKeyVal (r : WorkRec) (k : SortKey) : JSVal :=
  match k with
  | .one f => getField r.fields f
  | .many fs => getField r.fields (String.intercalate "," fs)

/-- The cursor advance `n++` with end-of-sequence handling: when `n`
reaches the end, move the anchor on (`i++; n = i + 1`). -/
def advance (len i n : Nat) : Nat × Nat :=
  if n + 1 ≥ len then (i + 1, i + 2) else (i, n + 1)

/-- One iteration of the scan loop (`run`, lines 607–644), generic in
the pair-score function that `run` instantiates from the step and the
`fieldWeight` setting.  `ann` holds the current step's annotations,
indexed by sorted position. -/
def scanBody (score : WorkRec → WorkRec → ℚ) (markOriginal : Bool) (dupeRef : Nat)
    (sk : SortKey) (sorted : List WorkRec) (i n : Nat) (ann : List (Option StepAnn)) :
    Nat × Nat × List (Option StepAnn) :=
  let ri := sorted.getD i default
  let rn := sorted.getD n default
  let dupeScore := score ri rn
  if dupeScore > 0 then
    let ann1 :=
      if (ann.getD i none).isNone then
        ann.set i (some { score := if markOriginal then dupeScore else 0 })
      else ann
    let ann2 :=
      match ann1.getD n none with
      | none => ann1.set n (some { score := dupeScore, dupeOf := some (refId dupeRef ri) })
      | some prev =>
        if dupeScore ≥ prev.score then
          ann1.set n (some { score := dupeScore, dupeOf := some (refId dupeRef ri) })
        else ann1
    let p := advance sorted.length i n
    (p.1, p.2, ann2)
  else
    if jsStrictEq (sortKeyVal ri sk) (sortKeyVal rn sk) then
      let p := advance sorted.length i n
      (p.1, p.2, ann)
    else
      (i + 1, i + 2, ann)

/-- Termination measure for the scan: the anchor component dominates,
the candidate cursor breaks ties.  `scanBody_measure` (below, with the
theorems) shows every loop iteration strictly decreases it. -/
def scanMeasure (len i n : Nat) : Nat := (len - i) * (len + 1) + (len - n)

/-- The scan loop iterated under explicit fuel; `scanBody_measure` shows
each iteration strictly decreases `scanMeasure`, so any fuel above the
state's measure never runs out (`scanGo_irrel`). -/
def scanGo (score : WorkRec → WorkRec → ℚ) (markOriginal : Bool) (dupeRef : Nat)
    (sk : SortKey) (sorted : List WorkRec) :
    Nat → Nat → Nat → List (Option StepAnn) → List (Option StepAnn)
  | 0, _, _, ann => ann
  | fuel + 1, i, n, ann =>
    if n < sorted.length then
      let t := scanBody score markOriginal dupeRef sk sorted i n ann
      scanGo score markOriginal dupeRef sk sorted fuel t.1 t.2.1 t.2.2
    else ann

/-- The scan loop `while (n < sortedRefs.length) {...}` of one step:
`scanGo` with provably sufficient fuel (see `scanStep_eq` with the
theorems for the defining equation of the loop). -/
def scanStep (score : WorkRec → WorkRec → ℚ) (markOriginal : Bool) (dupeRef : Nat)
    (sk : SortKey) (sorted : List WorkRec) (i n : Nat) (ann : List (Option StepAnn)) :
    List (Option StepAnn) :=
  scanGo score markOriginal dupeRef sk sorted (scanMeasure sorted.length i n + 1) i n ann

/-! ### Sorting (`_.sortBy(refs, step.sort)`)

lodash `sortBy` is a stable sort on the property (or property list)
iteratee, modelled with a stable insertion sort.  Unlike the scan's
`sortedRefs[k][step.sort]` read above, `sortBy` does handle a list of
field names as separate keys.  The exact comparator between unequal
mixed-type values does not matter for any claim; `jsValLe` models
lodash's `compareAscending` with undefined sorting last.  The source
caches the previous step's sort (`sortedBy`) as a pure optimization —
resorting by the same key reproduces the same order — so the model
resorts every step. -/

/-- Lexicographic `≤` on code-point sequences (the JS `<` on strings,
code-unit order; the engine's fields are BMP text). -/
def lexLe : List Nat → List Nat → Bool
  | [], _ => true
  | _ :: _, [] => false
  | a :: as, b :: bs => if a < b then true else if b < a then false else lexLe as bs

/-- JS string order. -/
def strLe (s t : String) : Bool := lexLe (s.data.map Char.toNat) (t.data.map Char.toNat)

def jsValLe : JSVal → JSVal → Bool
  | .undefined, .undefined => true
  | .undefined, _ => false
  | _, .undefined => true
  | .num p, .num q => p ≤ q
  | .num _, _ => true
  | _, .num _ => false
  | .str s, .str t => strLe s t
  | .str _, _ => true
  | _, .str _ => false
  | .bool a, .bool b => a = b ∨ a = false
  | .bool _, _ => true
  | _, .bool _ => false
  | .arr xs, .arr ys => strLe (String.intercalate "," xs) (String.intercalate "," ys)

/-- Lexicographic comparison of key-value lists (multi-key `sortBy`). -/
def jsValListLe : List JSVal → List JSVal → Bool
  | [], _ => true
  | _ :: _, [] => false
  | a :: as, b :: bs =>
    if jsValLe a b then (if jsValLe b a then jsValListLe as bs else true) else false

/-- The `sortBy` iteratee values of a record for a sort key. -/
def sortKeyList (r : WorkRec) (k : SortKey) : List JSVal :=
  match k with
  | .one f => [getField r.fields f]
  | .many fs => fs.map (getField r.fields)

/-- Stable insertion into a sorted list: `x` goes after every earlier
element that compares `≤` to it. -/
def insertLe (le : α → α → Bool) (x : α) : List α → List α
  | [] => [x]
  | y :: ys => if le y x then y :: insertLe le x ys else x :: y :: ys

/-- Stable insertion sort: elements are inserted left to right, each
after the already-placed elements that compare `≤` to it, so equal keys
keep their original order. -/
def insertionSort (le : α → α → Bool) (l : List α) : List α :=
  l.foldl (fun acc x => insertLe le x acc) []

/-- The sorted sequence as (original position, record) pairs; the JS
array holds shared object references, so the model carries each record's
position in `refs` to merge annotations back. -/
def sortPerm (k : SortKey) (refs : List WorkRec) : List (Nat × WorkRec) :=
  insertionSort (fun a b => jsValListLe (sortKeyList a.2 k) (sortKeyList b.2 k)) refs.enum

/-- Sparse-array write `steps[stepIndex] = v`: extend with holes up to
the index, then set. -/
def setSparse (l : List (Option StepAnn)) (k : Nat) (v : StepAnn) : List (Option StepAnn) :=
  (l ++ List.replicate (k + 1 - l.length) none).set k (some v)

/-- Merge a step's annotations (indexed by sorted position) back onto
the records in original order — the functional image of the JS in-place
mutation through the shared references in `sortedRefs`. -/
def applyAnn (stepIndex : Nat) (perm : List (Nat × WorkRec)) (ann : List (Option StepAnn))
    (refs : List WorkRec) : List WorkRec :=
  (perm.zip ann).foldl
    (fun refs p =>
      match p.2 with
      | none => refs
      | some a =>
        refs.set p.1.1
          (let r := refs.getD p.1.1 default
           { r with steps := setSparse r.steps stepIndex a }))
    refs

/-- The pair score of `run` lines 607–609: `compareViaStepMin` when
`fieldWeight == FIELDWEIGHT.MINIMUM` (0), else `compareViaStepAvg`. -/
def stepScore (s : Settings) (st : StepObj) (a b : WorkRec) : ℚ :=
  if s.fieldWeight = 0 then compareViaStepMin a.fields b.fields st
  else compareViaStepAvg a.fields b.fields st

/-- One step of the sweep: sort, scan, merge annotations back. -/
def sweepStep (s : Settings) (refs : List WorkRec) (stepIndex : Nat) (st : StepObj) :
    List WorkRec :=
  let sk := st.sort.getD (.one "")
  let perm := sortPerm sk refs
  let sorted := perm.map (fun p => p.2)
  let ann := scanStep (stepScore s st) s.markOriginal s.dupeRef sk sorted 0 1
    (List.replicate sorted.length none)
  applyAnn stepIndex perm ann refs

/-- The sweep engine: iterate the strategy's steps in order. -/
def sweep (s : Settings) (steps : List StepObj) (refs : List WorkRec) : List WorkRec :=
  steps.enum.foldl (fun refs p => sweepStep s refs p.1 p.2) refs

/-! ## Normalization pass, aggregator, action dispatcher -/

/-- A field's mutator chain applied left to right, starting from
`original[field] || ''`.  An unknown mutator name is a JS `TypeError`;
no claim exercises it, and the model passes the value through. -/
def applyChain (chain : List String) (original : RecIn) (f : String) : JSVal :=
  chain.foldl
    (fun value m =>
      match mutators m with
      | some h => h value original
      | none => value)
    (let v := getField original f
     if truthy v then v else .str "")

/-- The normalization pass: build a working record per input record. -/
def mutatePass (strat : StratObj) (input : List RecIn) : List WorkRec :=
  input.enum.map (fun p =>
    { original := p.2
      index := p.1
      recNumber := (let r := getField p.2 "refNumber"; if truthy r then r else .num (natQ (p.1 + 1)))
      fields := (strat.mutators.getD []).foldl
        (fun acc q => setField acc q.1 (applyChain q.2 p.2 q.1)) p.2
      steps := [] })

/-- lodash `_.sum` over the (possibly sparse) mapped scores: undefined
entries are skipped; the result is undefined (`none`) when every entry
was skipped. -/
def jsSum (l : List (Option ℚ)) : Option ℚ :=
  l.foldl
    (fun acc cur =>
      match cur with
      | none => acc
      | some c => some (acc.getD 0 + c))
    none

/-- The aggregator's score (`run` lines 649–656):
`steps.length > 0 ? _.sum(steps.map(s => s.score)) / steps.length : 0`.
The `.getD 0` covers only the nonempty-all-holes case, where JS would
produce `NaN`; a sweep always populates the final slot of a nonempty
`steps` array, so that case is unreachable. -/
def dedupeScore (steps : List (Option StepAnn)) : ℚ :=
  if steps.length > 0 then
    (jsSum (steps.map (Option.map StepAnn.score))).getD 0 / steps.length
  else 0

/-- The aggregator: attach `dedupe.score` to every working record. -/
def aggregate (refs : List WorkRec) : List WorkRec :=
  refs.map (fun r => { r with score := dedupeScore r.steps })

/-- An output record's field value: an input value carried through, or
the `{score, dupeOf}` stats object attached by the STATS action. -/
inductive OutVal where
  | plain : JSVal → OutVal
  | stats : ℚ → List JSVal → OutVal
deriving DecidableEq, Repr

/-- An output record. -/
def RecOut : Type := List (String × OutVal)

instance : DecidableEq RecOut := by unfold RecOut; infer_instance

/-- An input record viewed as an output record. -/
def toOut (r : RecIn) : RecOut := r.map (fun p => (p.1, .plain p.2))

/-- Spread-with-field on output records (`{...ref, [actionField]: v}`). -/
def setFieldOut (r : RecOut) (f : String) (v : OutVal) : RecOut :=
  match r with
  | [] => [(f, v)]
  | (g, w) :: rest => if g = f then (f, v) :: rest else (g, w) :: setFieldOut rest f v

/-- lodash `.uniq()` (first occurrence kept, SameValueZero equality). -/
def jsUniqAux (seen : List (Option JSVal)) : List (Option JSVal) → List (Option JSVal)
  | [] => []
  | x :: xs => if x ∈ seen then jsUniqAux seen xs else x :: jsUniqAux (x :: seen) xs

/-- The STATS `dupeOf` list:
`_(steps).map('dupeOf').uniq().filter(v => v !== undefined)` — lodash
`map` reads holes as undefined. -/
def statsDupeOf (steps : List (Option StepAnn)) : List JSVal :=
  (jsUniqAux [] (steps.map (fun o => o.bind StepAnn.dupeOf))).filterMap id

/-- The action dispatcher (`run` lines 657–683), mapping over the
original input records and reading the aligned working records by index.
The JS `switch` has no default case — it resolves `undefined` for an
unknown action — but `run` validates the action up front, so that branch
is unreachable. -/
def dispatch (s : Settings) (output : List RecIn) (refs : List WorkRec) :
    Except String (List RecOut) :=
  if s.action = 0 then
    .ok (output.enum.map (fun p =>
      setFieldOut (toOut p.2) s.actionField
        (.stats (refs.getD p.1 default).score (statsDupeOf (refs.getD p.1 default).steps))))
  else if s.action = 1 then
    .ok (output.enum.map (fun p =>
      setFieldOut (toOut p.2) s.actionField
        (.plain (if (refs.getD p.1 default).score ≥ s.threshold
                 then applyMark s.markDupe p.2
                 else applyMark s.markOk p.2))))
  else if s.action = 2 then
    .ok ((output.enum.filter (fun p => (refs.getD p.1 default).score < s.threshold)).map
      (fun p => toOut p.2))
  else .error "unreachable: action was validated"

/-- `run`: the whole pipeline.  The strategy catalog (the class's static
`strategies` table) is a parameter; the string-path input branch
(delegated to the external reference parser) is outside the model, so
the input is already a sequence and the `isArray` check passes. -/
def run (strategies : List (String × StratObj)) (s : Settings) (input : List RecIn) :
    Except String (List RecOut) :=
  if ¬ (s.action = 0 ∨ s.action = 1 ∨ s.action = 2) then
    .error "Invalid action - choose one action from Dedupe.ACTIONS"
  else if ¬ (s.dupeRef = 0 ∨ s.dupeRef = 1) then
    .error "Invalid dupeRef - choose one action from Dedupe.DUPEREF"
  else
    match List.lookup s.strategy strategies with
    | none => .error "Unknown strategy specified"
    | some strat =>
      match strat.steps with
      | none => .error "Invalid strategy schema"
      | some steps =>
        match (if s.validateStrategy then validateStrategy strat else .ok (.inr true)) with
        | .error e => .error e
        | .ok (.inl errs) => .error ("Invalid strategy - " ++ String.intercalate ", " errs)
        | .ok (.inr _) => dispatch s input (aggregate (sweep s steps (mutatePass strat input)))

/-! ## Concrete fixtures

Small concrete strategies, settings and records used to instantiate the
theorems below. -/

/-- A step comparing the `doi` field exactly, sorted by `doi`. -/
def stepDoi : StepObj :=
  { fields := some ["doi"]
    sort := some (.one "doi")
    comparison := .str "exact" }

/-- A step comparing the `title` field exactly, sorted by `title`. -/
def stepTitle : StepObj :=
  { fields := some ["title"]
    sort := some (.one "title")
    comparison := .str "exact" }

/-- A valid two-step strategy (doi pass, then title pass), no mutators. -/
def twoStepStrategy : StratObj :=
  { title := .str "t"
    description := .str "d"
    mutators := some []
    steps := some [stepDoi, stepTitle] }

/-- Default settings pointed at the catalog entry `"s2"`. -/
def settingsS2 : Settings := { strategy := "s2" }

/-- Two records sharing a title (duplicates under `stepTitle`). -/
def pairInput : List RecIn := [[("title", .str "x")], [("title", .str "x")]]

/-- The working record the sweep produces for the first of `pairInput`
under `twoStepStrategy`: the title pass (step index 1) annotates it as
the kept original with score 0. -/
def wrecA : WorkRec :=
  { original := [("title", .str "x")]
    index := 0
    recNumber := .num (natQ 1)
    fields := [("title", .str "x")]
    steps := [none, some { score := 0 }]
    score := 0 }

/-- The working record for the second of `pairInput`: the title pass
marks it a duplicate of index 0 with score 1; step index 0 is a hole. -/
def wrecB : WorkRec :=
  { original := [("title", .str "x")]
    index := 1
    recNumber := .num (natQ 2)
    fields := [("title", .str "x")]
    steps := [none, some { score := 1, dupeOf := some (.num (natQ 0)) }]
    score := 0 }

/-- A step whose compared field `q` is absent from the records (so every
pair scores 0 via `skipOmitted`) and whose sort key is a *list* of field
names. -/
def stepListSort : StepObj :=
  { fields := some ["q"]
    sort := some (.many ["t", "y"])
    comparison := .str "exact" }

/-- Working records with distinct `t` and `y` values. -/
def wdist0 : WorkRec :=
  { original := []
    index := 0
    recNumber := .num (natQ 1)
    fields := [("t", .str "a"), ("y", .str "1")] }

def wdist1 : WorkRec :=
  { original := []
    index := 1
    recNumber := .num (natQ 2)
    fields := [("t", .str "b"), ("y", .str "2")] }

def wdist2 : WorkRec :=
  { original := []
    index := 2
    recNumber := .num (natQ 3)
    fields := [("t", .str "c"), ("y", .str "3")] }

/-- The two-field step of the field-weight claim: both fields match
exactly between the records compared. -/
def stepTwoFields : StepObj :=
  { fields := some ["title", "year"]
    sort := some (.one "title")
    comparison := .str "exact" }

/-- A record with a title and a year. -/
def recXY : RecIn := [("title", .str "x"), ("year", .str "2000")]

/-- A strategy object whose `steps` property is absent. -/
def stratNoSteps : StratObj :=
  { title := .str "t"
    description := .str "d"
    mutators := some []
    steps := none }

/-- A strategy object with an empty `steps` sequence. -/
def stratEmptySteps : StratObj :=
  { title := .str "t"
    description := .str "d"
    mutators := some []
    steps := some [] }

/-- Two records with different titles: no step of `twoStepStrategy`
matches them, so their `dedupe.steps` arrays stay empty. -/
def distinctInput : List RecIn := [[("title", .str "x")], [("title", .str "z")]]

/-- MARK-action settings with threshold 0. -/
def settingsMark : Settings := { strategy := "s", action := 1, threshold := 0 }

/-- The STATS output of `run` on `distinctInput` under
`twoStepStrategy`: both records annotated with score 0, in input
order. -/
def outDistinct : List RecOut :=
  [[("title", .plain (.str "x")), ("dedupe", .stats 0 [])],
   [("title", .plain (.str "z")), ("dedupe", .stats 0 [])]]

/-!  # Theorems

First the loop infrastructure (the measure decreases, fuel does not
matter, the loop's defining equation), then the aggregation algebra,
then one theorem per claim of the specification. -/

theorem scanMeasure_reset (len i n : Nat) (h : n < len) :
    scanMeasure len (i + 1) (i + 2) < scanMeasure len i n := by
  unfold scanMeasure
  rcases Nat.lt_or_ge i len with hi | hi
  · have h1 : len - i = (len - (i + 1)) + 1 := by omega
    calc (len - (i + 1)) * (len + 1) + (len - (i + 2))
        < (len - (i + 1)) * (len + 1) + (len + 1) := by omega
      _ = ((len - (i + 1)) + 1) * (len + 1) := by ring
      _ = (len - i) * (len + 1) := by rw [← h1]
      _ ≤ (len - i) * (len + 1) + (len - n) := Nat.le_add_right _ _
  · have h1 : len - (i + 1) = 0 := by omega
    have h3 : len - i = 0 := by omega
    simp only [h1, h3, Nat.zero_mul, Nat.zero_add]
    omega

theorem scanMeasure_advance (len i n : Nat) (h : n < len) :
    scanMeasure len (advance len i n).1 (advance len i n).2 < scanMeasure len i n := by
  unfold advance
  split
  · exact scanMeasure_reset len i n h
  · unfold scanMeasure
    apply Nat.add_lt_add_left
    omega

theorem scanBody_measure (score : WorkRec → WorkRec → ℚ) (markOriginal : Bool)
    (dupeRef : Nat) (sk : SortKey) (sorted : List WorkRec) (i n : Nat)
    (ann : List (Option StepAnn)) (h : n < sorted.length) :
    scanMeasure sorted.length
        (scanBody score markOriginal dupeRef sk sorted i n ann).1
        (scanBody score markOriginal dupeRef sk sorted i n ann).2.1
      < scanMeasure sorted.length i n := by
  unfold scanBody
  dsimp only
  split
  · exact scanMeasure_advance sorted.length i n h
  · split
    · exact scanMeasure_advance sorted.length i n h
    · exact scanMeasure_reset sorted.length i n h

theorem scanGo_irrel (score : WorkRec → WorkRec → ℚ) (markOriginal : Bool) (dupeRef : Nat)
    (sk : SortKey) (sorted : List WorkRec) :
    ∀ f1 f2 i n ann, scanMeasure sorted.length i n < f1 → scanMeasure sorted.length i n < f2 →
      scanGo score markOriginal dupeRef sk sorted f1 i n ann
        = scanGo score markOriginal dupeRef sk sorted f2 i n ann := by
  intro f1
  induction f1 with
  | zero => intro f2 i n ann h1; omega
  | succ a ih =>
    intro f2 i n ann h1 h2
    match f2, h2 with
    | b + 1, h2 =>
      rw [scanGo, scanGo]
      split
      · next hn =>
        apply ih
        · exact Nat.lt_of_lt_of_le (scanBody_measure score markOriginal dupeRef sk sorted i n ann hn)
            (Nat.lt_succ_iff.mp h1)
        · exact Nat.lt_of_lt_of_le (scanBody_measure score markOriginal dupeRef sk sorted i n ann hn)
            (Nat.lt_succ_iff.mp h2)
      · rfl

/-- The scan loop's defining equation: run one iteration, continue. -/
theorem scanStep_eq (score : WorkRec → WorkRec → ℚ) (markOriginal : Bool) (dupeRef : Nat)
    (sk : SortKey) (sorted : List WorkRec) (i n : Nat) (ann : List (Option StepAnn)) :
    scanStep score markOriginal dupeRef sk sorted i n ann
      = if n < sorted.length then
          (let t := scanBody score markOriginal dupeRef sk sorted i n ann
           scanStep score markOriginal dupeRef sk sorted t.1 t.2.1 t.2.2)
        else ann := by
  unfold scanStep
  rw [scanGo]
  split
  · next hn =>
    exact scanGo_irrel score markOriginal dupeRef sk sorted _ _ _ _ _
      (scanBody_measure score markOriginal dupeRef sk sorted i n ann hn)
      (Nat.lt_succ_self _)
  · rfl

theorem jsSum_foldl_some (l : List (Option ℚ)) :
    ∀ a : ℚ,
      l.foldl (fun acc cur => match cur with | none => acc | some c => some (acc.getD 0 + c))
          (some a)
        = some (a + (l.filterMap id).sum) := by
  induction l with
  | nil => intro a; simp
  | cons x t ih =>
    intro a
    cases x with
    | none => simp [List.foldl_cons, ih]
    | some c =>
      simp only [List.foldl_cons, ih, Option.getD_some, List.filterMap_cons, id_eq,
        List.sum_cons]
      rw [add_assoc]

/-- lodash's undefined-skipping sum agrees with the sum of the populated
entries (with 0 for the all-skipped case). -/
theorem jsSum_getD (l : List (Option ℚ)) : (jsSum l).getD 0 = (l.filterMap id).sum := by
  unfold jsSum
  induction l with
  | nil => simp
  | cons x t ih =>
    cases x with
    | none => simpa using ih
    | some c =>
      simp only [List.foldl_cons, Option.getD_none, jsSum_foldl_some, Option.getD_some,
        List.filterMap_cons, id_eq, List.sum_cons]
      rw [zero_add]

/-- C9: the mutator input/output pairs —
`alphaNumericOnly("one$two_three()") = "one two three "`,
`deburr("ÕÑÎÔÑ") = "ONION"`, `numericOnly("one1two2three3") = "123"`,
`consistentPageNumbering("244-58") = "244-258"`,
`consistentPageNumbering("") = ""`,
`doiRewrite("10.1000/182") = "https://doi.org/10.1000/182"`, and
`doiRewrite("", record)` with `record.urls =
["http://doi.org/10.1000/182"]` giving
`"https://doi.org/10.1000/182"`. -/
theorem c9_mutator_examples :
    alphaNumericOnly "one$two_three()" = "one two three " ∧
    deburr "ÕÑÎÔÑ" = "ONION" ∧
    numericOnly "one1two2three3" = "123" ∧
    consistentPageNumbering "244-58" = "244-258" ∧
    consistentPageNumbering "" = "" ∧
    doiRewrite (.str "10.1000/182") [] = .str "https://doi.org/10.1000/182" ∧
    doiRewrite (.str "") [("urls", .arr ["http://doi.org/10.1000/182"])]
      = .str "https://doi.org/10.1000/182" := by
  refine ⟨?_, ?_, ?_, ?_, ?_, ?_, ?_⟩ <;> rfl

/-- C4 (code bug): for two structurally equal arrays the `exact`
comparison returns the JS boolean `true` — not the number 1 that the
claim and the handler's own documentation ("a floating value of the
input similarity") promise; non-array values do get the numbers 1/0. -/
theorem c4_exact_array_returns_boolean :
    exactCmp (.arr ["x"]) (.arr ["x"]) = .bool true ∧
    JSVal.bool true ≠ JSVal.num 1 ∧
    exactCmp (.str "x") (.str "x") = .num 1 ∧
    exactCmp (.str "x") (.str "y") = .num 0 := by
  refine ⟨rfl, ?_, rfl, ?_⟩
  · intro h
    cases h
  · rfl

/-- C5 (code bug): `validateStrategy` reads `strategy.steps.length`
before checking that `steps` exists, so a strategy object without a
`steps` property makes it throw a `TypeError` instead of returning the
accumulated error list; with `steps` present (even empty) it does
return the accumulated list without raising. -/
theorem c5_validateStrategy_throws_on_missing_steps :
    validateStrategy stratNoSteps
      = .error "TypeError: Cannot read properties of undefined (reading length)" ∧
    validateStrategy stratEmptySteps = .ok (.inl ["Should contain at least one step"]) ∧
    validateStrategy twoStepStrategy = .ok (.inr true) := by
  refine ⟨rfl, rfl, rfl⟩

/-- C1 (code bug): with field-weight AVERAGE the step score is *not*
the arithmetic mean of the per-field scores — `compareViaStepAvg`'s
reduce discards its accumulator, so it divides only the last field's
score by the field count.  Here both per-field scores are 1, the mean
is 1, but the function returns 1/2.  The MINIMUM path does return the
minimum of the per-field scores. -/
theorem c1_average_is_not_mean_of_field_scores :
    toNumber (fieldScore stepTwoFields recXY recXY "title") = 1 ∧
    toNumber (fieldScore stepTwoFields recXY recXY "year") = 1 ∧
    compareViaStepAvg recXY recXY stepTwoFields = 1/2 ∧
    compareViaStepMin recXY recXY stepTwoFields = 1 := by
  refine ⟨rfl, rfl, ?_, rfl⟩
  have hfold : (stepFields stepTwoFields).foldl
      (fun _result f => fieldScore stepTwoFields recXY recXY f) (.num 0)
      = fieldScore stepTwoFields recXY recXY "year" := rfl
  have h2 : toNumber (fieldScore stepTwoFields recXY recXY "year") = 1 := rfl
  unfold compareViaStepAvg
  rw [hfold, h2]
  norm_num [stepTwoFields, stepFields]

/-- C2 (counterexample): after a sweep of `twoStepStrategy` over
`pairInput`, the second record's only populated step entry holds score
1, so the claimed mean of populated step scores is 1 — but the engine
divides by the sparse array's length (2) and reports 1/2 in the STATS
output. -/
theorem c2_mean_of_populated_counterexample :
    run [("s2", twoStepStrategy)] settingsS2 pairInput
      = .ok [[("title", .plain (.str "x")), ("dedupe", .stats 0 [])],
             [("title", .plain (.str "x")), ("dedupe", .stats (1/2) [.num (natQ 0)])]]
    ∧ wrecB.steps.filterMap id = [{ score := 1, dupeOf := some (.num (natQ 0)) }]
    ∧ ((1 : ℚ)/2 ≠ 1) := by
  refine ⟨?_, rfl, by norm_num⟩
  have h0 : run [("s2", twoStepStrategy)] settingsS2 pairInput
      = dispatch settingsS2 pairInput
          (aggregate (sweep settingsS2 [stepDoi, stepTitle] (mutatePass twoStepStrategy pairInput))) := rfl
  have hsweep : sweep settingsS2 [stepDoi, stepTitle] (mutatePass twoStepStrategy pairInput)
      = [wrecA, wrecB] := by decide
  have hagg : aggregate [wrecA, wrecB]
      = [{ wrecA with score := 0 }, { wrecB with score := 1/2 }] := by
    simp only [aggregate, List.map, dedupeScore, jsSum, List.foldl, Option.getD, wrecA, wrecB]
    norm_num
  have hne : ("title" : String) ≠ "dedupe" := by decide
  rw [h0, hsweep, hagg]
  simp only [dispatch, settingsS2, pairInput, wrecA, wrecB, statsDupeOf, jsUniqAux, setFieldOut,
    toOut, List.enum, List.enumFrom, List.map, List.filterMap, Option.bind, Option.getD, hne]
  norm_num

/-- C2 (amended): the aggregator sets `dedupe.score` to the sum of the
populated per-step scores divided by the *length of the steps array*
(the highest populated step index + 1, holes included), which is 0 when
the array is empty; it equals the mean of the populated scores only
when no hole lies below the highest populated index. -/
theorem c2_score_is_sum_over_array_length (steps : List (Option StepAnn)) :
    dedupeScore steps = ((steps.filterMap id).map StepAnn.score).sum / steps.length := by
  unfold dedupeScore
  split
  · rw [jsSum_getD]
    congr 1
    rw [List.filterMap_map, List.map_filterMap]
    simp
  · next h =>
    have hnil : steps = [] := by
      cases steps with
      | nil => rfl
      | cons a t => simp at h
    subst hnil
    simp

/-- C3 (counterexample): a step whose sort key is a *list* of field
names.  The pair (positions 0, 1) scores 0 and the two records'
sort-key values differ — the claim says the engine must advance `i` and
reset `n` (to cursor state (1, 2)) — but the scan's equality check reads
the property named by the comma-joined list, finds `undefined` on both
sides, and advances `n` instead (cursor state (0, 2)). -/
theorem c3_list_sort_key_counterexample :
    stepScore settingsS2 stepListSort wdist0 wdist1 = 0 ∧
    sortKeyList wdist0 (.many ["t", "y"]) ≠ sortKeyList wdist1 (.many ["t", "y"]) ∧
    scanBody (stepScore settingsS2 stepListSort) false 0 (.many ["t", "y"])
        [wdist0, wdist1, wdist2] 0 1 [none, none, none]
      = (0, 2, [none, none, none]) := by
  decide

/-- C3 (amended): when the step score of the pair is 0 the scan writes
no annotation, and advances by the strict equality of the records'
values at the *property named by the sort key* — `n + 1` (with
end-of-sequence anchor handling, `advance`) when they are strictly
equal, else `i + 1, n = i + 2`.  For a single-field key that property
is the sort field; for a list key it is the comma-joined name, which is
`undefined` on both sides whenever no field is literally so named, so
the scan then always takes the `n + 1` branch regardless of the listed
fields' values. -/
theorem c3_zero_score_advance (score : WorkRec → WorkRec → ℚ) (mo : Bool) (dr : Nat)
    (sk : SortKey) (sorted : List WorkRec) (i n : Nat) (ann : List (Option StepAnn))
    (hscore : score (sorted.getD i default) (sorted.getD n default) = 0) :
    (scanBody score mo dr sk sorted i n ann).2.2 = ann ∧
    (jsStrictEq (sortKeyVal (sorted.getD i default) sk) (sortKeyVal (sorted.getD n default) sk)
        = true →
      ((scanBody score mo dr sk sorted i n ann).1, (scanBody score mo dr sk sorted i n ann).2.1)
        = advance sorted.length i n) ∧
    (jsStrictEq (sortKeyVal (sorted.getD i default) sk) (sortKeyVal (sorted.getD n default) sk)
        = false →
      ((scanBody score mo dr sk sorted i n ann).1, (scanBody score mo dr sk sorted i n ann).2.1)
        = (i + 1, i + 2)) ∧
    (∀ fs, sk = .many fs →
      getField (sorted.getD i default).fields (String.intercalate "," fs) = .undefined →
      getField (sorted.getD n default).fields (String.intercalate "," fs) = .undefined →
      ((scanBody score mo dr sk sorted i n ann).1, (scanBody score mo dr sk sorted i n ann).2.1)
        = advance sorted.length i n) := by
  have h0 : ¬ (score (sorted.getD i default) (sorted.getD n default) > 0) := by
    rw [hscore]
    exact lt_irrefl 0
  have hbody : scanBody score mo dr sk sorted i n ann
      = if jsStrictEq (sortKeyVal (sorted.getD i default) sk)
            (sortKeyVal (sorted.getD n default) sk)
        then ((advance sorted.length i n).1, (advance sorted.length i n).2, ann)
        else (i + 1, i + 2, ann) := by
    unfold scanBody
    dsimp only
    rw [if_neg h0]
  refine ⟨?_, ?_, ?_, ?_⟩
  · rw [hbody]
    split <;> rfl
  · intro ht
    rw [hbody, if_pos ht]
  · intro hf
    have hnt : ¬ (jsStrictEq (sortKeyVal (sorted.getD i default) sk)
        (sortKeyVal (sorted.getD n default) sk) = true) := by
      rw [hf]
      exact Bool.false_ne_true
    rw [hbody, if_neg hnt]
  · intro fs hsk hi hn
    subst hsk
    have ht : jsStrictEq (sortKeyVal (sorted.getD i default) (.many fs))
        (sortKeyVal (sorted.getD n default) (.many fs)) = true := by
      simp only [sortKeyVal, hi, hn]
      rfl
    rw [hbody, if_pos ht]

/-- Witness for `c3_zero_score_advance`: a zero-scoring pair with a
single-field sort key and unequal sort values advances the anchor. -/
theorem c3_zero_score_advance_witness :
    ((scanBody (fun _ _ => 0) false 0 (.one "t") [wdist0, wdist1, wdist2] 0 1
        [none, none, none]).1,
     (scanBody (fun _ _ => 0) false 0 (.one "t") [wdist0, wdist1, wdist2] 0 1
        [none, none, none]).2.1)
      = (1, 2) ∧
    (scanBody (fun _ _ => 0) false 0 (.one "t") [wdist0, wdist1, wdist2] 0 1
        [none, none, none]).2.2
      = [none, none, none] := by
  have h := c3_zero_score_advance (fun _ _ => 0) false 0 (.one "t") [wdist0, wdist1, wdist2]
    0 1 [none, none, none] rfl
  exact ⟨h.2.2.1 (by decide), h.1⟩

/-- Setting position `m` to an annotation that is either
backreference-free or points below `m` preserves the
"every `dupeOf` points to a strictly earlier sorted position"
invariant. -/
theorem annOk_set (dr : Nat) (sorted : List WorkRec) (ann : List (Option StepAnn)) (m : Nat)
    (v : StepAnn)
    (hv : v.dupeOf = none ∨ ∃ j, j < m ∧ v.dupeOf = some (refId dr (sorted.getD j default)))
    (hann : ∀ k a d, ann[k]? = some (some a) → a.dupeOf = some d →
      ∃ j, j < k ∧ d = refId dr (sorted.getD j default)) :
    ∀ k a d, (ann.set m (some v))[k]? = some (some a) → a.dupeOf = some d →
      ∃ j, j < k ∧ d = refId dr (sorted.getD j default) := by
  intro k a d hk hd
  rw [List.getElem?_set] at hk
  by_cases hkm : m = k
  · rw [if_pos hkm] at hk
    split at hk
    · have hva : v = a := by
        injection hk with h1
        injection h1
      subst hva
      rcases hv with hnone | ⟨j, hj, hdv⟩
      · rw [hnone] at hd
        cases hd
      · rw [hdv] at hd
        cases hd
        exact ⟨j, by omega, rfl⟩
    · cases hk
  · rw [if_neg hkm] at hk
    exact hann k a d hk hd

/-- One scan iteration keeps the cursor invariant `i < n` and the
backreference invariant: every annotation it writes at position `n`
backreferences position `i < n`, and the one it writes at position `i`
has no backreference. -/
theorem scanBody_pres (score : WorkRec → WorkRec → ℚ) (mo : Bool) (dr : Nat) (sk : SortKey)
    (sorted : List WorkRec) (i n : Nat) (ann : List (Option StepAnn)) (hin : i < n)
    (hann : ∀ k a d, ann[k]? = some (some a) → a.dupeOf = some d →
      ∃ j, j < k ∧ d = refId dr (sorted.getD j default)) :
    (scanBody score mo dr sk sorted i n ann).1 < (scanBody score mo dr sk sorted i n ann).2.1 ∧
    (∀ k a d, (scanBody score mo dr sk sorted i n ann).2.2[k]? = some (some a) →
      a.dupeOf = some d → ∃ j, j < k ∧ d = refId dr (sorted.getD j default)) := by
  have hadv : (advance sorted.length i n).1 < (advance sorted.length i n).2 := by
    unfold advance
    split
    · omega
    · omega
  unfold scanBody
  dsimp only
  split
  · -- dupeScore > 0: up to two annotation writes, then advance
    refine ⟨hadv, ?_⟩
    split
    · -- no existing annotation at n: write {score, dupeOf i}
      refine annOk_set dr sorted _ n _ (Or.inr ⟨i, hin, rfl⟩) ?_
      split
      · exact annOk_set dr sorted ann i _ (Or.inl rfl) hann
      · exact hann
    · -- existing annotation: overwrite when the new score is ≥
      split
      · refine annOk_set dr sorted _ n _ (Or.inr ⟨i, hin, rfl⟩) ?_
        split
        · exact annOk_set dr sorted ann i _ (Or.inl rfl) hann
        · exact hann
      · split
        · exact annOk_set dr sorted ann i _ (Or.inl rfl) hann
        · exact hann
  · -- score 0: no writes in either advance case
    refine ⟨?_, ?_⟩
    · split
      · exact hadv
      · exact Nat.lt_succ_self (i + 1)
    · split
      · exact hann
      · exact hann

/-- The invariant survives the whole scan loop. -/
theorem scanGo_pres (score : WorkRec → WorkRec → ℚ) (mo : Bool) (dr : Nat) (sk : SortKey)
    (sorted : List WorkRec) :
    ∀ fuel i n ann, i < n →
      (∀ k a d, ann[k]? = some (some a) → a.dupeOf = some d →
        ∃ j, j < k ∧ d = refId dr (sorted.getD j default)) →
      ∀ k a d, (scanGo score mo dr sk sorted fuel i n ann)[k]? = some (some a) →
        a.dupeOf = some d → ∃ j, j < k ∧ d = refId dr (sorted.getD j default) := by
  intro fuel
  induction fuel with
  | zero =>
    intro i n ann hin hann k a d hk hd
    rw [scanGo] at hk
    exact hann k a d hk hd
  | succ f ih =>
    intro i n ann hin hann k a d hk hd
    rw [scanGo] at hk
    split at hk
    · have hp := scanBody_pres score mo dr sk sorted i n ann hin hann
      exact ih _ _ _ hp.1 hp.2 k a d hk hd
    · exact hann k a d hk hd

/-- C8: every `dupeOf` backreference a step's scan writes identifies
(per the `dupeRef` setting) a record at a *strictly earlier* position in
that step's sorted order than the record that carries it — never the
record itself and never a later one. -/
theorem c8_dupeOf_points_strictly_earlier (score : WorkRec → WorkRec → ℚ) (mo : Bool)
    (dr : Nat) (sk : SortKey) (sorted : List WorkRec) (k : Nat) (a : StepAnn) (d : JSVal)
    (hk : (scanStep score mo dr sk sorted 0 1 (List.replicate sorted.length none))[k]?
        = some (some a))
    (hd : a.dupeOf = some d) :
    ∃ j, j < k ∧ d = refId dr (sorted.getD j default) := by
  have hinit : ∀ k a d,
      (List.replicate sorted.length (none : Option StepAnn))[k]? = some (some a) →
      a.dupeOf = some d → ∃ j, j < k ∧ d = refId dr (sorted.getD j default) := by
    intro k a d hk hd
    rw [List.getElem?_replicate] at hk
    split at hk
    · cases hk
    · cases hk
  unfold scanStep at hk
  exact scanGo_pres score mo dr sk sorted _ 0 1 _ (by omega) hinit k a d hk hd

/-- Witness for `c8_dupeOf_points_strictly_earlier`: with two records
and a constantly matching score the scan annotates sorted position 1
with a backreference, which the theorem places strictly before 1. -/
theorem c8_dupeOf_witness :
    ∃ j, j < 1 ∧ JSVal.num (natQ 0) = refId 0 ([wdist0, wdist1].getD j default) := by
  apply c8_dupeOf_points_strictly_earlier (fun _ _ => (1 : ℚ)) false 0 (.one "t")
    [wdist0, wdist1] 1 { score := 1, dupeOf := some (.num (natQ 0)) } (.num (natQ 0)) ?_ rfl
  decide

/-- C7: a record whose final `dedupe.score` equals the threshold is
classified as a duplicate — the inclusive boundary.  Under MARK (action
1) the dispatcher assigns it the `markDupe` value (`score >= threshold`),
and under DELETE (action 2) every record of the output comes from a
position other than the record's, with a score strictly below the
threshold (`filter(score < threshold)` drops it). -/
theorem c7_threshold_inclusive (s : Settings) (output : List RecIn) (refs : List WorkRec)
    (j : Nat) (r : RecIn)
    (hj : output.get? j = some r)
    (hs : (refs.getD j default).score = s.threshold) :
    (s.action = 1 → ∃ out, dispatch s output refs = .ok out ∧
      out.get? j = some (setFieldOut (toOut r) s.actionField
        (.plain (applyMark s.markDupe r)))) ∧
    (s.action = 2 → ∀ out, dispatch s output refs = .ok out →
      ∀ x ∈ out, ∃ i2 rx, i2 ≠ j ∧ output.get? i2 = some rx ∧ x = toOut rx ∧
        (refs.getD i2 default).score < s.threshold) := by
  constructor
  · intro h1
    have hd : dispatch s output refs
        = .ok (output.enum.map (fun p =>
            setFieldOut (toOut p.2) s.actionField
              (.plain (if (refs.getD p.1 default).score ≥ s.threshold
                       then applyMark s.markDupe p.2
                       else applyMark s.markOk p.2)))) := by
      unfold dispatch
      rw [if_neg (by omega), if_pos h1]
    refine ⟨_, hd, ?_⟩
    rw [List.get?_map, List.get?_enum, hj]
    simp only [Option.map_some']
    rw [hs, if_pos (le_refl s.threshold)]
  · intro h2 out hout x hx
    have hd : dispatch s output refs
        = .ok ((output.enum.filter
              (fun p => (refs.getD p.1 default).score < s.threshold)).map
            (fun p => toOut p.2)) := by
      unfold dispatch
      rw [if_neg (by omega), if_neg (by omega), if_pos h2]
    rw [hd] at hout
    injection hout with hout
    rw [← hout] at hx
    rcases List.mem_map.mp hx with ⟨p, hpmem, hpx⟩
    rcases List.mem_filter.mp hpmem with ⟨hpenum, hpred⟩
    have hget : output.get? p.1 = some p.2 := List.mem_enum_iff_get?.mp hpenum
    have hscore : (refs.getD p.1 default).score < s.threshold := of_decide_eq_true hpred
    have hne : p.1 ≠ j := by
      intro he
      rw [he, hs] at hscore
      exact lt_irrefl _ hscore
    exact ⟨p.1, p.2, hne, hget, hpx.symm, hscore⟩

/-- Witness for `c7_threshold_inclusive`: a record with score 0 under a
threshold of 0 receives the `markDupe` value. -/
theorem c7_threshold_witness :
    ∃ out, dispatch settingsMark [recXY] [wdist0] = .ok out ∧
      out.get? 0 = some (setFieldOut (toOut recXY) settingsMark.actionField
        (.plain (applyMark settingsMark.markDupe recXY))) :=
  (c7_threshold_inclusive settingsMark [recXY] [wdist0] 0 recXY rfl rfl).1 rfl

/-- An index-filtered projection of a list is a sublist of the list's
image: the shape of the DELETE action. -/
theorem filter_enumFrom_map_sublist (p : Nat × RecIn → Bool) :
    ∀ (l : List RecIn) (k : Nat),
      ((((l.enumFrom k).filter p).map (fun q => toOut q.2))).Sublist (l.map toOut) := by
  intro l
  induction l with
  | nil => intro k; simp
  | cons a t ih =>
    intro k
    show ((((k, a) :: t.enumFrom (k + 1)).filter p).map (fun q => toOut q.2)).Sublist _
    rw [List.filter_cons]
    split
    · rw [List.map_cons, List.map_cons]
      exact List.Sublist.cons₂ (toOut a) (ih (k + 1))
    · rw [List.map_cons]
      exact List.Sublist.cons (toOut a) (ih (k + 1))

/-- C6: a successful `run` returns, under STATS (0) and MARK (1), a
sequence of exactly the input's length in which the record at each
position is the input record at that position with the action field
attached; under DELETE (2) it returns a subsequence of the input
preserving relative order.  (The internal per-step sorting never
reorders the output: the dispatcher maps over the original input.) -/
theorem c6_output_shape (strategies : List (String × StratObj)) (s : Settings)
    (input : List RecIn) (out : List RecOut)
    (h : run strategies s input = .ok out) :
    ((s.action = 0 ∨ s.action = 1) →
      out.length = input.length ∧
      ∀ j r, input.get? j = some r →
        ∃ v, out.get? j = some (setFieldOut (toOut r) s.actionField v)) ∧
    (s.action = 2 → out.Sublist (input.map toOut)) := by
  unfold run at h
  split at h
  · simp at h
  · split at h
    · simp at h
    · split at h
      · simp at h
      · split at h
        · simp at h
        · split at h
          · simp at h
          · simp at h
          · -- h : dispatch s input refs = .ok out
            unfold dispatch at h
            by_cases h0 : s.action = 0
            · rw [if_pos h0] at h
              injection h with h
              constructor
              · intro _
                constructor
                · rw [← h, List.length_map, List.enum_length]
                · intro j r hj
                  rw [← h, List.get?_map, List.get?_enum, hj]
                  simp only [Option.map_some']
                  exact ⟨_, rfl⟩
              · intro h2
                omega
            · rw [if_neg h0] at h
              by_cases h1 : s.action = 1
              · rw [if_pos h1] at h
                injection h with h
                constructor
                · intro _
                  constructor
                  · rw [← h, List.length_map, List.enum_length]
                  · intro j r hj
                    rw [← h, List.get?_map, List.get?_enum, hj]
                    simp only [Option.map_some']
                    exact ⟨_, rfl⟩
                · intro h2
                  omega
              · rw [if_neg h1] at h
                by_cases h2 : s.action = 2
                · rw [if_pos h2] at h
                  injection h with h
                  constructor
                  · intro hor
                    rcases hor with h' | h' <;> omega
                  · intro _
                    rw [← h]
                    exact filter_enumFrom_map_sublist _ input 0
                · rw [if_neg h2] at h
                  simp at h

/-- Witness for `c6_output_shape`: the STATS run over `distinctInput`
returns a sequence of the input's length. -/
theorem c6_output_witness : outDistinct.length = distinctInput.length := by
  have h := c6_output_shape [("s2", twoStepStrategy)] settingsS2 distinctInput outDistinct
    (by decide)
  exact (h.1 (Or.inl rfl)).1

/-- The sweep of an empty working-record sequence does nothing. -/
theorem sweep_nil (s : Settings) (steps : List StepObj) : sweep s steps [] = [] := by
  unfold sweep
  generalize steps.enum = l
  induction l with
  | nil => rfl
  | cons x t ih =>
    rw [List.foldl_cons]
    rw [show sweepStep s [] x.1 x.2 = [] from rfl]
    exact ih

/-- C10: on the empty input sequence a `run` with valid settings and a
valid catalogued strategy succeeds with the empty output under every
action, and the scan of an empty sorted sequence performs no pair
comparison at all (it returns its annotations untouched for any score
function and cursor state). -/
theorem c10_empty_input (strategies : List (String × StratObj)) (s : Settings)
    (strat : StratObj) (steps : List StepObj)
    (ha : s.action = 0 ∨ s.action = 1 ∨ s.action = 2)
    (hd : s.dupeRef = 0 ∨ s.dupeRef = 1)
    (hl : List.lookup s.strategy strategies = some strat)
    (hst : strat.steps = some steps)
    (hv : s.validateStrategy = true → validateStrategy strat = .ok (.inr true)) :
    run strategies s [] = .ok [] ∧
    (∀ score mo dr sk i n ann, scanStep score mo dr sk ([] : List WorkRec) i n ann = ann) := by
  constructor
  · unfold run
    rw [if_neg (not_not_intro ha), if_neg (not_not_intro hd)]
    simp only [hl]
    simp only [hst]
    have hrest : ∀ v : Except String (List String ⊕ Bool), v = .ok (.inr true) →
        (match v with
         | .error e => Except.error e
         | .ok (.inl errs) => Except.error ("Invalid strategy - " ++ String.intercalate ", " errs)
         | .ok (.inr _) =>
            dispatch s [] (aggregate (sweep s steps (mutatePass strat [])))) = .ok [] := by
      intro v hveq
      subst hveq
      show dispatch s [] (aggregate (sweep s steps (mutatePass strat []))) = .ok []
      rw [show mutatePass strat [] = [] from rfl, sweep_nil,
        show aggregate [] = [] from rfl]
      unfold dispatch
      rcases ha with h0 | h1 | h2
      · rw [if_pos h0]
        rfl
      · rw [if_neg (by omega), if_pos h1]
        rfl
      · rw [if_neg (by omega), if_neg (by omega), if_pos h2]
        rfl
    apply hrest
    by_cases hval : s.validateStrategy
    · rw [if_pos hval]
      exact hv hval
    · rw [if_neg hval]
  · intro score mo dr sk i n ann
    unfold scanStep
    rw [scanGo]
    rw [if_neg (by simp)]

/-- Witness for `c10_empty_input`: the empty run with the concrete
valid catalog and default settings. -/
theorem c10_empty_witness : run [("s2", twoStepStrategy)] settingsS2 [] = .ok [] :=
  (c10_empty_input [("s2", twoStepStrategy)] settingsS2 twoStepStrategy [stepDoi, stepTitle]
    (Or.inl rfl) (Or.inl rfl) rfl rfl (fun _ => by decide)).1

end SweepDedupe
